import Mathlib

/-!
# Weather particle demo: a shallow embedding of `src/main.cpp`

The program's `float`/`double` values are embedded as elements of an arbitrary
linearly ordered field `R` (exact arithmetic); `ℚ` is used to evaluate the
definitions on concrete inputs and `ℝ` for the trigonometric functions.
The integer-valued floats are the exception: the counter `float i` of the generation
loop, whose rounding decides control flow, and the conversions `(float)n` of integers
are embedded as natural numbers with the binary32 rounding `toFloat32`.
Machine integers (`unsigned int`) are natural numbers reduced modulo `2 ^ 32`.
-/

set_option autoImplicit false

namespace Weather

/-! ## Vectors and matrices (the subset of glm used by `main.cpp`) -/

/-- The glm type `vec3`. -/
@[ext]
structure Vec3 (R : Type) where
  x : R
  y : R
  z : R
deriving DecidableEq

/-- The glm type `vec4`. -/
@[ext]
structure Vec4 (R : Type) where
  x : R
  y : R
  z : R
  w : R
deriving DecidableEq

/-- The glm type `mat3`, stored by columns as glm does. -/
structure Mat3 (R : Type) where
  c0 : Vec3 R
  c1 : Vec3 R
  c2 : Vec3 R

/-- The glm type `mat4`, stored by columns as glm does. -/
structure Mat4 (R : Type) where
  c0 : Vec4 R
  c1 : Vec4 R
  c2 : Vec4 R
  c3 : Vec4 R

section Algebra

variable {R : Type} [LinearOrderedField R]

/-- Component-wise `vec3 + vec3` (used by `camPosition += ...`). -/
def Vec3.add (a b : Vec3 R) : Vec3 R := ⟨a.x + b.x, a.y + b.y, a.z + b.z⟩

/-- Component-wise `vec3 - vec3` (used by `camPosition -= ...`). -/
def Vec3.sub (a b : Vec3 R) : Vec3 R := ⟨a.x - b.x, a.y - b.y, a.z - b.z⟩

/-- Component-wise `vec3 * vec3`, as glm defines `operator*` on two vectors. -/
def Vec3.mul (a b : Vec3 R) : Vec3 R := ⟨a.x * b.x, a.y * b.y, a.z * b.z⟩

/-- Dot product of two `vec3`. -/
def Vec3.dot (a b : Vec3 R) : R := a.x * b.x + a.y * b.y + a.z * b.z

/-- Squared Euclidean length of a `vec3`. -/
def Vec3.normSq (a : Vec3 R) : R := a.dot a

/-- The glm product `vec3 * mat3` (row vector times matrix): component `j` is
the dot product of the vector with column `j`. -/
def Vec3.mulMat (v : Vec3 R) (m : Mat3 R) : Vec3 R := ⟨v.dot m.c0, v.dot m.c1, v.dot m.c2⟩

/-- The glm product `mat4 * vec4`: the linear combination of the columns. -/
def Mat4.mulVec (m : Mat4 R) (v : Vec4 R) : Vec4 R :=
  ⟨m.c0.x * v.x + m.c1.x * v.y + m.c2.x * v.z + m.c3.x * v.w,
   m.c0.y * v.x + m.c1.y * v.y + m.c2.y * v.z + m.c3.y * v.w,
   m.c0.z * v.x + m.c1.z * v.y + m.c2.z * v.z + m.c3.z * v.w,
   m.c0.w * v.x + m.c1.w * v.y + m.c2.w * v.z + m.c3.w * v.w⟩

/-- The glm product `mat4 * mat4`: column `j` of the result is the left factor
applied to column `j` of the right factor. -/
def Mat4.mul (a b : Mat4 R) : Mat4 R :=
  ⟨a.mulVec b.c0, a.mulVec b.c1, a.mulVec b.c2, a.mulVec b.c3⟩

/-- The glm conversion `vec3(vec4)`, which drops the `w` component. -/
def Vec4.xyz (v : Vec4 R) : Vec3 R := ⟨v.x, v.y, v.z⟩

/-- Sine, cosine and pi of the math library, passed explicitly so that the camera
code stays executable over `ℚ` while the theorems instantiate it with the real
functions. -/
structure Trig (R : Type) where
  cos : R → R
  sin : R → R
  pi : R

/-- Function `glm::radians`: degrees to radians. -/
def radians (T : Trig R) (degrees : R) : R := degrees * (T.pi / 180)

/-- Modelled from the spec: `rotateX` of the linear-algebra helper header
(`glmutils.h`, not in the sources): the `mat4` rotating by `angle` radians about
the x axis, in glm's column layout. -/
def rotateX (T : Trig R) (angle : R) : Mat4 R :=
  ⟨⟨1, 0, 0, 0⟩, ⟨0, T.cos angle, T.sin angle, 0⟩, ⟨0, -T.sin angle, T.cos angle, 0⟩,
   ⟨0, 0, 0, 1⟩⟩

/-- Modelled from the spec: `rotateY` of the linear-algebra helper header
(`glmutils.h`, not in the sources): the `mat4` rotating by `angle` radians about
the y axis, in glm's column layout. -/
def rotateY (T : Trig R) (angle : R) : Mat4 R :=
  ⟨⟨T.cos angle, 0, -T.sin angle, 0⟩, ⟨0, 1, 0, 0⟩, ⟨T.sin angle, 0, T.cos angle, 0⟩,
   ⟨0, 0, 0, 1⟩⟩

/-! ## Camera and input (`cursorInRange`, `cursor_input_callback`, `processInput`) -/

/-- The globals used for control: `camForward`, `camPosition`, `linearSpeed`,
`rotationGain`, and the window's should-close flag. -/
structure Camera (R : Type) where
  camForward : Vec3 R
  camPosition : Vec3 R
  linearSpeed : R
  rotationGain : R
  shouldClose : Bool

/-- The initial values of the control globals. -/
def Camera.init : Camera R :=
  { camForward := ⟨0, 0, -1⟩
    camPosition := ⟨0, 1.6, 0⟩
    linearSpeed := 0.15
    rotationGain := 30
    shouldClose := false }

/-- Function `cursorInRange`: maps a cursor position into `[min, max]` centred on zero;
returns the pair of output parameters `(x, y)`. -/
def cursorInRange (screenX screenY : R) (screenW screenH : ℤ) (min max : R) : R × R :=
  let sum := max - min
  let xInRange := screenX / (screenW : R) * sum - sum / 2
  let yInRange := screenY / (screenH : R) * sum - sum / 2
  (xInRange, -yInRange)

/-- The angle in degrees that `cursor_input_callback` hands to `rotateY`
(through `glm::radians`): `-x / rotationGain`. -/
def yawDegrees (s : Camera R) (posX posY : R) (width height : ℤ) : R :=
  -(cursorInRange posX posY width height 0 360).1 / s.rotationGain

/-- The angle in degrees that `cursor_input_callback` hands to `rotateX`
(through `glm::radians`): `max (min (y / rotationGain) 89) (-89)`. -/
def pitchDegrees (s : Camera R) (posX posY : R) (width height : ℤ) : R :=
  max (min ((cursorInRange posX posY width height 0 360).2 / s.rotationGain) 89) (-89)

/-- Function `cursor_input_callback`: `width` and `height` are what `glfwGetWindowSize`
reports; the only global written is `camForward`. -/
def cursor_input_callback (T : Trig R) (s : Camera R) (posX posY : R) (width height : ℤ) :
    Camera R :=
  let lookAround := rotateY T (radians T (yawDegrees s posX posY width height))
  let lookUpDown := rotateX T (radians T (pitchDegrees s posX posY width height))
  { s with camForward := ((lookAround.mul lookUpDown).mulVec ⟨0, 0, -1, 1⟩).xyz }

/-- One cursor event: the reported position and the window size at that time. -/
structure CursorEvent (R : Type) where
  posX : R
  posY : R
  width : ℤ
  height : ℤ

/-- A sequence of look-updates: the callback run on each event in turn. -/
def lookUpdates (T : Trig R) (s : Camera R) (evs : List (CursorEvent R)) : Camera R :=
  evs.foldl (fun c e => cursor_input_callback T c e.posX e.posY e.width e.height) s

/-- What `glfwGetKey(..) == GLFW_PRESS` answers for the five keys polled by
`processInput`. -/
structure Keys where
  escape : Bool
  w : Bool
  s : Bool
  d : Bool
  a : Bool
deriving DecidableEq

/-- The local `direction` of `processInput`: `camForward * vec3(linearSpeed, 0, linearSpeed)`. -/
def direction (c : Camera R) : Vec3 R :=
  c.camForward.mul ⟨c.linearSpeed, 0, c.linearSpeed⟩

/-- The local `rotateY` of `processInput`: `glm::mat3(0, 0, -1, 0, 1, 0, 1, 0, 0)`
(column by column). -/
def strafeMatrix : Mat3 R := ⟨⟨0, 0, -1⟩, ⟨0, 1, 0⟩, ⟨1, 0, 0⟩⟩

/-- Function `processInput`: escape requests closing; then the `if / else if` chain over
W, S, D, A moves `camPosition`. -/
def processInput (k : Keys) (c : Camera R) : Camera R :=
  let c1 := if k.escape then { c with shouldClose := true } else c
  let direction := direction c1
  let rotateY : Mat3 R := strafeMatrix
  if k.w then { c1 with camPosition := c1.camPosition.add direction }
  else if k.s then { c1 with camPosition := c1.camPosition.sub direction }
  else if k.d then { c1 with camPosition := c1.camPosition.add (direction.mulMat rotateY) }
  else if k.a then { c1 with camPosition := c1.camPosition.sub (direction.mulMat rotateY) }
  else c1

/-- The four movement keys, for stating which of them takes effect. -/
inductive MoveKey where
  | W
  | S
  | D
  | A
deriving DecidableEq

/-- Whether a movement key is held. -/
def Keys.held (k : Keys) : MoveKey → Bool
  | MoveKey.W => k.w
  | MoveKey.S => k.s
  | MoveKey.D => k.d
  | MoveKey.A => k.a

/-- The held movement keys, in the order forward, backward, strafe-right, strafe-left. -/
def heldInOrder (k : Keys) : List MoveKey :=
  [MoveKey.W, MoveKey.S, MoveKey.D, MoveKey.A].filter k.held

/-- The spec's reading: the last held key in the order W, S, D, A. -/
def lastHeld (k : Keys) : Option MoveKey := (heldInOrder k).getLast?

/-- The first held key in the order W, S, D, A. -/
def firstHeld (k : Keys) : Option MoveKey := (heldInOrder k).head?

/-- Component-wise negation of a `vec3`. -/
def Vec3.neg (a : Vec3 R) : Vec3 R := ⟨-a.x, -a.y, -a.z⟩

/-- The displacement the spec attaches to each movement key on its own:
`± direction` for forward / backward, `± direction * rotateY` for strafing. -/
def keyDisplacement (c : Camera R) : MoveKey → Vec3 R
  | MoveKey.W => direction c
  | MoveKey.S => (direction c).neg
  | MoveKey.D => (direction c).mulMat strafeMatrix
  | MoveKey.A => ((direction c).mulMat strafeMatrix).neg

end Algebra

/-! ## Particle buffer (`createVertexBufferObject`, `bindAttributes`, `setupParticles`) -/

/-- Number of attributes (floats) of one particle. -/
def particleSize : ℕ := 4

/-- Bytes in a float (the global constant of `main.cpp`). -/
def sizeOfFloat : ℕ := 4

/-- The configured number of particles. -/
def numberOfParticles : ℕ := 10000

/-- What `sizeof(float)` evaluates to. -/
def sizeofFloat : ℕ := 4

/-- Arithmetic on `unsigned int` wraps modulo `2 ^ 32`. -/
def wrapUInt (n : ℕ) : ℕ := n % 2 ^ 32

/-- The spacing of binary32 numbers (24-bit significand) around the natural number `n`:
`1` below `2 ^ 24`, then `2 ^ (e - 23)` for `2 ^ e ≤ n < 2 ^ (e + 1)`. -/
def ulp32 (n : ℕ) : ℕ := 2 ^ (Nat.log 2 n - 23)

/-- The binary32 number nearest to the natural number `n`, ties to the even significand:
the value of `(float)n` for an `unsigned int`, and of a float operation whose exact
result is `n`. -/
def toFloat32 (n : ℕ) : ℕ :=
  if 2 * (n % ulp32 n) < ulp32 n then n / ulp32 n * ulp32 n
  else if ulp32 n < 2 * (n % ulp32 n) then (n / ulp32 n + 1) * ulp32 n
  else if (n / ulp32 n) % 2 = 0 then n / ulp32 n * ulp32 n
  else (n / ulp32 n + 1) * ulp32 n

section Particles

variable {R : Type} [LinearOrderedField R] [FloorRing R]

/-- Rounding toward zero, as the C library does when it forms the quotient in `fmod`. -/
def truncToInt (q : R) : ℤ := if 0 ≤ q then ⌊q⌋ else ⌈q⌉

/-- The C library function `fmod`: `x - n * y` with `n` the quotient `x / y`
rounded toward zero. -/
def fmod (x y : R) : R := x - (truncToInt (x / y) : R) * y

/-- The expression `rand() / (float)RAND_MAX` for a call of `rand()` that returned `n`:
both integers are converted to binary32, then divided. -/
def unitDraw (RAND_MAX n : ℕ) : R := (toFloat32 n : R) / (toFloat32 RAND_MAX : R)

/-- The local array `float data[particleSize]` of one loop iteration. -/
structure Particle (R : Type) where
  x : R
  y : R
  z : R
  size : R
deriving DecidableEq

/-- The four floats of a record in buffer order. -/
def Particle.toList (p : Particle R) : List R := [p.x, p.y, p.z, p.size]

/-- The body of the generation loop when the counter `float i` holds the integer `i` and
`k` calls of `rand()` were made before: `rand k`, `rand (k + 1)`, ... are the values the
next calls return, and `frag` is the value of `cbrt(numberOfParticles)`. -/
def particleData (RAND_MAX : ℕ) (rand : ℕ → ℕ) (frag : R) (i k : ℕ) : Particle R :=
  { x := (unitDraw RAND_MAX (rand k) + fmod (i : R) frag) / frag * 30
    y := fmod (unitDraw RAND_MAX (rand (k + 1)) + (i : R) / frag) frag / frag * 30
    z := (unitDraw RAND_MAX (rand (k + 2)) + (i : R) / frag ^ 2) / frag * 30
    size := unitDraw RAND_MAX (rand (k + 3)) * 20 + 20 }

/-- The arguments of one call `glBufferSubData(GL_ARRAY_BUFFER, offset, size, data)`
of the generation loop, `data` being the local array of that iteration. -/
structure SubData (R : Type) where
  offset : ℕ
  size : ℕ
  data : Particle R

/-- The call issued at the end of the iteration with counter value `i`: offset
`i * particleSize * sizeOfFloat`, two float products (each rounded to binary32, no
wrap-around), size `particleSize * sizeOfFloat` in `unsigned int`. -/
def subDataCall (RAND_MAX : ℕ) (rand : ℕ → ℕ) (frag : R) (i k : ℕ) : SubData R :=
  { offset := toFloat32 (toFloat32 (i * particleSize) * sizeOfFloat)
    size := wrapUInt (particleSize * sizeOfFloat)
    data := particleData RAND_MAX rand frag i k }

/-- The loop `for (float i = 0; i < numberOfParticles; i++)` of `setupParticles`, from
counter value `i` on, with `k` earlier calls of `rand()`; `calls` collects the buffer
updates issued so far, in order. The test compares `i` with `(float)numberOfParticles` and
`i++` rounds `i + 1` to binary32, so the loop need not end: `fuel` bounds the number of
tests, and `none` means the loop was still running when it was used up. -/
def setupParticlesLoop (N RAND_MAX : ℕ) (rand : ℕ → ℕ) (frag : R) :
    ℕ → ℕ → ℕ → List (SubData R) → Option (List (SubData R))
  | 0, _, _, _ => none
  | fuel + 1, i, k, calls =>
    if i < toFloat32 N then
      setupParticlesLoop N RAND_MAX rand frag fuel (toFloat32 (i + 1)) (k + 4)
        (calls ++ [subDataCall RAND_MAX rand frag i k])
    else some calls

/-- The buffer updates issued by `setupParticles`, in order (`none`: the loop did not end
within `fuel` tests). -/
def particleCalls (fuel N RAND_MAX : ℕ) (rand : ℕ → ℕ) (frag : R) :
    Option (List (SubData R)) :=
  setupParticlesLoop N RAND_MAX rand frag fuel 0 0 []

/-- The records `(x, y, z, size)` produced by the generation loop, in order. -/
def particleRecords (fuel N RAND_MAX : ℕ) (rand : ℕ → ℕ) (frag : R) :
    Option (List (Particle R)) :=
  (particleCalls fuel N RAND_MAX rand frag).map (fun calls => calls.map SubData.data)

/-- A buffer object's data store: its size in bytes and its contents read as
floats (slot `j` occupies bytes `4 * j .. 4 * j + 3`). -/
structure GLBuffer (R : Type) where
  size : ℕ
  floats : List R

/-- The call `glBufferData(target, size, data, usage)`: a new store of `size` bytes holding
the first `size` bytes of `data`. -/
def glBufferData (size : ℕ) (data : List R) : GLBuffer R :=
  ⟨size, data.take (size / sizeOfFloat)⟩

/-- The call `glBufferSubData(target, offset, size, data)`: overwrites bytes
`offset .. offset + size - 1`; a range reaching past the end of the store is an
error (`GL_INVALID_VALUE`) that leaves the store unchanged. -/
def glBufferSubData (b : GLBuffer R) (offset size : ℕ) (data : List R) : GLBuffer R :=
  if offset + size ≤ b.size then
    { b with floats := b.floats.take (offset / sizeOfFloat)
                        ++ data.take (size / sizeOfFloat)
                        ++ b.floats.drop (offset / sizeOfFloat + size / sizeOfFloat) }
  else b

/-- The arguments of one `glVertexAttribPointer` call with type `GL_FLOAT`:
component count, stride in bytes and byte offset of the first component. -/
structure VertexAttrib where
  components : ℕ
  stride : ℕ
  offset : ℕ
deriving DecidableEq

/-- Function `bindAttributes`: the layouts of the attributes `pos` and `size`. -/
def bindAttributes : VertexAttrib × VertexAttrib :=
  (⟨3, wrapUInt (particleSize * sizeOfFloat), 0⟩,
   ⟨1, wrapUInt (particleSize * sizeOfFloat), 3 * sizeofFloat⟩)

/-- The floats the vertex fetch reads for vertex `i` of attribute `a`: `a.components`
floats starting at byte `a.offset + i * a.stride`. -/
def fetchAttrib (b : GLBuffer R) (a : VertexAttrib) (i : ℕ) : List R :=
  (b.floats.drop ((a.offset + i * a.stride) / sizeOfFloat)).take a.components

/-- Function `createVertexBufferObject`: a zero-filled `std::vector<float>` of
`numberOfParticles * particleSize` entries is uploaded as a store of
`numberOfParticles * particleSize * sizeOfFloat` bytes. -/
def createVertexBufferObject (N : ℕ) : GLBuffer R :=
  let data : List R := List.replicate (wrapUInt (N * particleSize)) 0
  glBufferData (wrapUInt (N * particleSize * sizeOfFloat)) data

/-- The struct `ParticleObject` with the state of its buffer and attribute bindings. -/
structure ParticleObject (R : Type) where
  buffer : GLBuffer R
  posAttrib : VertexAttrib
  sizeAttrib : VertexAttrib
  vertexBufferSize : ℕ

/-- Function `setupParticles` for `numberOfParticles = N`: allocate, bind the attributes,
run the generation loop against the store. -/
def setupParticles (fuel N RAND_MAX : ℕ) (rand : ℕ → ℕ) (frag : R) :
    Option (ParticleObject R) :=
  (particleCalls fuel N RAND_MAX rand frag).map fun calls =>
    { buffer := calls.foldl (fun b c => glBufferSubData b c.offset c.size c.data.toList)
        (createVertexBufferObject N)
      posAttrib := bindAttributes.1
      sizeAttrib := bindAttributes.2
      vertexBufferSize := N }

end Particles

/-! ## Time offsets (the two accumulators advanced by the render loop) -/

section Offsets

variable {R : Type} [LinearOrderedField R]

/-- The globals `gravityOffset` and `windOffset`. -/
structure Offsets (R : Type) where
  gravityOffset : R
  windOffset : R
deriving DecidableEq

/-- Both globals are initialised to `0`. -/
def Offsets.init : Offsets R := ⟨0, 0⟩

/-- The two statements `gravityOffset += 1.0 * deltaTime; windOffset += 0.1 * deltaTime;`
of one frame. -/
def advanceOffsets (o : Offsets R) (deltaTime : R) : Offsets R :=
  ⟨o.gravityOffset + 1.0 * deltaTime, o.windOffset + 0.1 * deltaTime⟩

/-- The offsets after a run of frames with the given delta times, in order. -/
def runFrames (o : Offsets R) (deltas : List R) : Offsets R :=
  deltas.foldl advanceOffsets o

end Offsets

end Weather


/-! # Theorems -/

namespace Weather

section CameraTheorems

variable {R : Type} [LinearOrderedField R]

theorem direction_y (c : Camera R) : (direction c).y = 0 := by
  simp [direction, Vec3.mul]

theorem strafe_y (c : Camera R) : ((direction c).mulMat strafeMatrix).y = 0 := by
  simp [direction, Vec3.mul, Vec3.mulMat, Vec3.dot, strafeMatrix]

/-- The position after `processInput`, as a case split over the `else if` chain. -/
theorem processInput_camPosition (k : Keys) (c : Camera R) :
    (processInput k c).camPosition =
      if k.w then c.camPosition.add (direction c)
      else if k.s then c.camPosition.sub (direction c)
      else if k.d then c.camPosition.add ((direction c).mulMat strafeMatrix)
      else if k.a then c.camPosition.sub ((direction c).mulMat strafeMatrix)
      else c.camPosition := by
  unfold processInput
  cases k.escape <;> cases k.w <;> cases k.s <;> cases k.d <;> cases k.a <;> rfl

theorem processInput_camForward (k : Keys) (c : Camera R) :
    (processInput k c).camForward = c.camForward := by
  unfold processInput
  cases k.escape <;> cases k.w <;> cases k.s <;> cases k.d <;> cases k.a <;> rfl

theorem processInput_linearSpeed (k : Keys) (c : Camera R) :
    (processInput k c).linearSpeed = c.linearSpeed := by
  unfold processInput
  cases k.escape <;> cases k.w <;> cases k.s <;> cases k.d <;> cases k.a <;> rfl

theorem direction_congr (c c' : Camera R) (hf : c'.camForward = c.camForward)
    (hs : c'.linearSpeed = c.linearSpeed) : direction c' = direction c := by
  simp [direction, hf, hs]

/-- C6: a `processInput` step with only D held followed by one with only A held
(whatever the escape key does) returns `camPosition` to its starting value. -/
theorem strafe_right_then_left_returns (c : Camera R) (esc1 esc2 : Bool) :
    (processInput ⟨esc2, false, false, false, true⟩
      (processInput ⟨esc1, false, false, true, false⟩ c)).camPosition = c.camPosition := by
  have hd : direction (processInput ⟨esc1, false, false, true, false⟩ c) = direction c :=
    direction_congr _ _ (processInput_camForward _ _) (processInput_linearSpeed _ _)
  rw [processInput_camPosition, hd, processInput_camPosition]
  simp only [Bool.false_eq_true, if_false, if_true]
  ext <;> simp [Vec3.add, Vec3.sub]

/-- C9: one `processInput` step leaves the y component of `camPosition` and the whole of
`camForward` unchanged, and both displacement vectors have zero vertical component. -/
theorem processInput_keeps_height_and_forward (k : Keys) (c : Camera R) :
    (processInput k c).camPosition.y = c.camPosition.y ∧
    (processInput k c).camForward = c.camForward ∧
    (direction c).y = 0 ∧ ((direction c).mulMat strafeMatrix).y = 0 := by
  refine ⟨?_, processInput_camForward k c, direction_y c, strafe_y c⟩
  rw [processInput_camPosition]
  have h1 := direction_y c
  have h2 := strafe_y c
  cases k.w <;> cases k.s <;> cases k.d <;> cases k.a <;> simp [Vec3.add, Vec3.sub, h1, h2]

/-- C8 (as stated, refuted): with W and S both held in the initial state, the step applies
the displacement of W, the first held key, and not that of S, the last held key. -/
theorem last_held_key_refuted :
    lastHeld ⟨false, true, true, false, false⟩ = some MoveKey.S ∧
    2 ≤ (heldInOrder ⟨false, true, true, false, false⟩).length ∧
    (processInput ⟨false, true, true, false, false⟩ (Camera.init : Camera ℚ)).camPosition
      ≠ (Camera.init : Camera ℚ).camPosition.add (keyDisplacement Camera.init MoveKey.S) ∧
    (processInput ⟨false, true, true, false, false⟩ (Camera.init : Camera ℚ)).camPosition
      = (Camera.init : Camera ℚ).camPosition.add (keyDisplacement Camera.init MoveKey.W) := by
  refine ⟨by decide, by decide, ?_, ?_⟩
  · rw [processInput_camPosition]
    simp only [if_true]
    intro h
    have hz := congrArg Vec3.z h
    norm_num [Camera.init, keyDisplacement, direction, Vec3.add, Vec3.mul, Vec3.neg] at hz
  · rw [processInput_camPosition]
    simp [keyDisplacement]

/-- C8 (amended): whenever movement keys are held (two or more in particular), one
`processInput` step moves `camPosition` by the displacement of exactly one key, the first
held one in the order W, S, D, A. -/
theorem first_held_key_takes_effect (k : Keys) (c : Camera R) (h : heldInOrder k ≠ []) :
    ∃ key, firstHeld k = some key ∧
      (processInput k c).camPosition = c.camPosition.add (keyDisplacement c key) := by
  rw [processInput_camPosition]
  have hsub : ∀ a b : Vec3 R, a.sub b = a.add b.neg := by
    intro a b; ext <;> simp [Vec3.add, Vec3.sub, Vec3.neg, sub_eq_add_neg]
  obtain ⟨e, w, s, d, a⟩ := k
  cases w <;> cases s <;> cases d <;> cases a <;>
    simp [firstHeld, heldInOrder, Keys.held, List.filter, keyDisplacement, hsub] at h ⊢

/-- C8 (amended), instance: W, S and A held in the initial state; W takes effect. -/
theorem first_held_key_takes_effect_witness :
    heldInOrder ⟨false, true, true, false, true⟩ ≠ [] ∧
    2 ≤ (heldInOrder ⟨false, true, true, false, true⟩).length ∧
    firstHeld ⟨false, true, true, false, true⟩ = some MoveKey.W ∧
    ∃ key, firstHeld ⟨false, true, true, false, true⟩ = some key ∧
      (processInput ⟨false, true, true, false, true⟩ (Camera.init : Camera ℚ)).camPosition
        = (Camera.init : Camera ℚ).camPosition.add (keyDisplacement Camera.init key) :=
  ⟨by decide, by decide, by decide, first_held_key_takes_effect _ _ (by decide)⟩

/-- The forward vector stored by the callback, in closed form. -/
theorem cursor_input_callback_camForward (T : Trig R) (s : Camera R) (posX posY : R)
    (width height : ℤ) :
    (cursor_input_callback T s posX posY width height).camForward =
      ⟨-(T.sin (radians T (yawDegrees s posX posY width height))
          * T.cos (radians T (pitchDegrees s posX posY width height))),
        T.sin (radians T (pitchDegrees s posX posY width height)),
        -(T.cos (radians T (yawDegrees s posX posY width height))
          * T.cos (radians T (pitchDegrees s posX posY width height)))⟩ := by
  ext <;> simp [cursor_input_callback, Mat4.mul, Mat4.mulVec, rotateX, rotateY, Vec4.xyz]

theorem cursor_input_callback_normSq (T : Trig R) (hT : ∀ t, T.cos t ^ 2 + T.sin t ^ 2 = 1)
    (s : Camera R) (posX posY : R) (width height : ℤ) :
    (cursor_input_callback T s posX posY width height).camForward.normSq = 1 := by
  rw [cursor_input_callback_camForward]
  simp only [Vec3.normSq, Vec3.dot]
  linear_combination
    (T.cos (radians T (pitchDegrees s posX posY width height))) ^ 2
        * hT (radians T (yawDegrees s posX posY width height))
      + hT (radians T (pitchDegrees s posX posY width height))

theorem cursor_input_callback_rotationGain (T : Trig R) (s : Camera R) (posX posY : R)
    (width height : ℤ) :
    (cursor_input_callback T s posX posY width height).rotationGain = s.rotationGain := rfl

theorem lookUpdates_rotationGain (T : Trig R) (evs : List (CursorEvent R)) (s : Camera R) :
    (lookUpdates T s evs).rotationGain = s.rotationGain := by
  induction evs generalizing s with
  | nil => rfl
  | cons e es ih =>
    have h := ih (cursor_input_callback T s e.posX e.posY e.width e.height)
    simpa [lookUpdates, cursor_input_callback_rotationGain] using h

theorem lookUpdates_normSq (T : Trig R) (hT : ∀ t, T.cos t ^ 2 + T.sin t ^ 2 = 1)
    (evs : List (CursorEvent R)) (s : Camera R) (hs : s.camForward.normSq = 1) :
    (lookUpdates T s evs).camForward.normSq = 1 := by
  induction evs generalizing s with
  | nil => simpa [lookUpdates] using hs
  | cons e es ih =>
    have h := ih (cursor_input_callback T s e.posX e.posY e.width e.height)
      (cursor_input_callback_normSq T hT s e.posX e.posY e.width e.height)
    simpa [lookUpdates] using h

theorem cursor_input_callback_congr (T : Trig R) (s s' : Camera R)
    (hg : s'.rotationGain = s.rotationGain) (posX posY : R) (width height : ℤ) :
    (cursor_input_callback T s' posX posY width height).camForward =
      (cursor_input_callback T s posX posY width height).camForward := by
  simp [cursor_input_callback_camForward, yawDegrees, pitchDegrees, hg]

/-- C4: with the real sine and cosine, the `camForward` stored by `cursor_input_callback`
has (squared) length one for every cursor position and positive window size, and so has
`camForward` after any sequence of look-updates from the initial state. -/
theorem camForward_unit_length (s : Camera ℝ) (posX posY : ℝ) (width height : ℤ)
    (_hw : 0 < width) (_hh : 0 < height) (evs : List (CursorEvent ℝ))
    (_hevs : ∀ e ∈ evs, 0 < e.width ∧ 0 < e.height) :
    (cursor_input_callback ⟨Real.cos, Real.sin, Real.pi⟩ s posX posY width
      height).camForward.normSq = 1 ∧
    (lookUpdates ⟨Real.cos, Real.sin, Real.pi⟩ Camera.init evs).camForward.normSq = 1 := by
  have hT : ∀ t : ℝ, (⟨Real.cos, Real.sin, Real.pi⟩ : Trig ℝ).cos t ^ 2
      + (⟨Real.cos, Real.sin, Real.pi⟩ : Trig ℝ).sin t ^ 2 = 1 :=
    fun t => Real.cos_sq_add_sin_sq t
  refine ⟨cursor_input_callback_normSq _ hT _ _ _ _ _, lookUpdates_normSq _ hT _ _ ?_⟩
  simp [Camera.init, Vec3.normSq, Vec3.dot]

/-- C4, instance: a 600 x 600 window, one callback from an arbitrary state and two
look-updates from the initial state. -/
theorem camForward_unit_length_witness :
    (0 : ℤ) < 600 ∧
    (cursor_input_callback ⟨Real.cos, Real.sin, Real.pi⟩ (Camera.init : Camera ℝ) 10 20 600
      600).camForward.normSq = 1 ∧
    (lookUpdates ⟨Real.cos, Real.sin, Real.pi⟩ (Camera.init : Camera ℝ)
      [⟨10, 20, 600, 600⟩, ⟨300, 5, 600, 600⟩]).camForward.normSq = 1 :=
  ⟨by norm_num,
   camForward_unit_length Camera.init 10 20 600 600 (by norm_num) (by norm_num)
     [⟨10, 20, 600, 600⟩, ⟨300, 5, 600, 600⟩] (by simp)⟩

/-- C5: the angle handed to `rotateX` is the mapped y over `rotationGain` clamped into
`[-89, 89]`; the angle handed to `rotateY` is `-x / rotationGain`, unclamped, and (for a
non-zero gain and window width) exceeds every bound in absolute value. -/
theorem pitch_clamped_yaw_unclamped (T : Trig R) (s : Camera R) (posX posY : R)
    (width height : ℤ) :
    (cursor_input_callback T s posX posY width height).camForward =
      (((rotateY T (radians T (yawDegrees s posX posY width height))).mul
        (rotateX T (radians T (pitchDegrees s posX posY width height)))).mulVec
          ⟨0, 0, -1, 1⟩).xyz ∧
    pitchDegrees s posX posY width height =
      max (min (-(posY / (height : R) * 360 - 180) / s.rotationGain) 89) (-89) ∧
    -89 ≤ pitchDegrees s posX posY width height ∧
    pitchDegrees s posX posY width height ≤ 89 ∧
    yawDegrees s posX posY width height = -(posX / (width : R) * 360 - 180) / s.rotationGain ∧
    (s.rotationGain ≠ 0 → width ≠ 0 →
      ∀ B : R, ∃ x : R, B < |yawDegrees s x posY width height|) := by
  refine ⟨rfl, ?_, ?_, ?_, ?_, ?_⟩
  · have h2 : (360 : R) / 2 = 180 := by norm_num
    simp [pitchDegrees, cursorInRange, h2]
  · exact le_max_right _ _
  · exact max_le (min_le_right _ _) (by norm_num)
  · have h2 : (360 : R) / 2 = 180 := by norm_num
    simp [yawDegrees, cursorInRange, h2]
  · intro hg hw B
    have hw' : (width : R) ≠ 0 := by exact_mod_cast hw
    refine ⟨(180 - (B + 1) * s.rotationGain) * (width : R) / 360, ?_⟩
    have hy : yawDegrees s ((180 - (B + 1) * s.rotationGain) * (width : R) / 360) posY width
        height = B + 1 := by
      simp only [yawDegrees, cursorInRange]
      field_simp
      ring
    rw [hy]
    exact lt_of_lt_of_le (by linarith) (le_abs_self _)

/-- C5, instance: the initial gain 30 and a window 600 wide; a cursor far above the window
is clamped to 89 degrees, and the yaw is unbounded. -/
theorem pitch_clamped_yaw_unclamped_witness :
    (Camera.init : Camera ℚ).rotationGain ≠ 0 ∧ (600 : ℤ) ≠ 0 ∧
    pitchDegrees (Camera.init : Camera ℚ) 300 (-50000) 600 600 = 89 ∧
    ∀ B : ℚ, ∃ x : ℚ, B < |yawDegrees (Camera.init : Camera ℚ) x (-50000) 600 600| :=
  have h := pitch_clamped_yaw_unclamped (⟨fun _ => 1, fun _ => 0, 3⟩ : Trig ℚ)
    (Camera.init : Camera ℚ) 300 (-50000) 600 600
  ⟨by norm_num [Camera.init], by norm_num,
   by rw [h.2.1]; norm_num [Camera.init],
   h.2.2.2.2.2 (by norm_num [Camera.init]) (by norm_num)⟩

/-- C7: the `camForward` stored by `cursor_input_callback` does not depend on the previous
`camForward` nor on the cursor events handled before, and a second call with the same
cursor position and window size leaves the whole state as the first call left it. -/
theorem cursor_callback_absolute (T : Trig R) (s : Camera R) (f : Vec3 R)
    (evs : List (CursorEvent R)) (posX posY : R) (width height : ℤ) :
    (cursor_input_callback T { s with camForward := f } posX posY width height).camForward =
      (cursor_input_callback T s posX posY width height).camForward ∧
    (cursor_input_callback T (lookUpdates T s evs) posX posY width height).camForward =
      (cursor_input_callback T s posX posY width height).camForward ∧
    cursor_input_callback T (cursor_input_callback T s posX posY width height) posX posY width
      height = cursor_input_callback T s posX posY width height := by
  refine ⟨cursor_input_callback_congr T s _ rfl _ _ _ _,
    cursor_input_callback_congr T s _ (lookUpdates_rotationGain T evs s) _ _ _ _, ?_⟩
  have h := cursor_input_callback_congr T s (cursor_input_callback T s posX posY width height)
    rfl posX posY width height
  obtain ⟨cf, cp, ls, rg, sc⟩ := s
  simp only [cursor_input_callback] at h ⊢
  rw [h]

end CameraTheorems

section OffsetTheorems

variable {R : Type} [LinearOrderedField R]

theorem runFrames_eq (deltas : List R) (o : Offsets R) :
    runFrames o deltas = ⟨o.gravityOffset + deltas.sum, o.windOffset + 0.1 * deltas.sum⟩ := by
  induction deltas generalizing o with
  | nil => simp [runFrames]
  | cons d ds ih =>
    have h := ih (advanceOffsets o d)
    simp only [runFrames, List.foldl_cons] at h ⊢
    rw [h]
    simp only [advanceOffsets, List.sum_cons, Offsets.mk.injEq]
    constructor <;> ring

/-- C3: from `gravityOffset = windOffset = 0`, running the per-frame update over any
reordering of the delta times `[d1, ..., dk]` leaves `gravityOffset = d1 + ... + dk` and
`windOffset = 0.1 * (d1 + ... + dk)`. -/
theorem offsets_sum_order_independent (deltas deltas' : List R) (h : deltas.Perm deltas') :
    runFrames Offsets.init deltas' = ⟨deltas.sum, 0.1 * deltas.sum⟩ := by
  rw [runFrames_eq, h.sum_eq]
  simp [Offsets.init]

/-- C3, instances: two frames in either order, and 50 frames of 0.02 s giving
`gravityOffset = 1.0` and `windOffset = 0.1`. -/
theorem offsets_sum_order_independent_witness :
    List.Perm [(0.02 : ℚ), 0.03] [0.03, 0.02] ∧
    runFrames Offsets.init [(0.03 : ℚ), 0.02] = ⟨0.05, 0.005⟩ ∧
    runFrames Offsets.init [(0.02 : ℚ), 0.03] = ⟨0.05, 0.005⟩ ∧
    runFrames Offsets.init (List.replicate 50 (0.02 : ℚ)) = ⟨1.0, 0.1⟩ := by
  refine ⟨List.Perm.swap _ _ _, ?_, ?_, ?_⟩
  · rw [offsets_sum_order_independent [(0.02 : ℚ), 0.03] [0.03, 0.02] (List.Perm.swap _ _ _)]
    norm_num
  · rw [offsets_sum_order_independent [(0.02 : ℚ), 0.03] _ (List.Perm.refl _)]
    norm_num
  · rw [offsets_sum_order_independent _ _ (List.Perm.refl _)]
    norm_num

end OffsetTheorems

section FloatCounter

theorem ulp32_pos (n : ℕ) : 0 < ulp32 n := by
  unfold ulp32
  positivity

theorem toFloat32_of_dvd (n : ℕ) (h : ulp32 n ∣ n) : toFloat32 n = n := by
  have hr : n % ulp32 n = 0 := Nat.mod_eq_zero_of_dvd h
  unfold toFloat32
  rw [hr, if_pos (by simpa using ulp32_pos n)]
  exact Nat.div_mul_cancel h

/-- A product of a 24-bit number and a power of two is a binary32 number. -/
theorem toFloat32_mul_pow (m j : ℕ) (hm : m < 2 ^ 24) : toFloat32 (m * 2 ^ j) = m * 2 ^ j := by
  apply toFloat32_of_dvd
  rcases Nat.eq_zero_or_pos m with h0 | hpos
  · subst h0; simp
  · have hne : m * 2 ^ j ≠ 0 := by positivity
    have hlt : m * 2 ^ j < 2 ^ (24 + j) := by
      rw [pow_add]
      exact Nat.mul_lt_mul_of_pos_right hm (by positivity)
    have hlog : Nat.log 2 (m * 2 ^ j) < 24 + j := Nat.log_lt_of_lt_pow hne hlt
    have hdvd : ulp32 (m * 2 ^ j) ∣ 2 ^ j := by
      unfold ulp32
      exact Nat.pow_dvd_pow 2 (by omega)
    exact Dvd.dvd.mul_left hdvd m

theorem toFloat32_of_le (n : ℕ) (h : n ≤ 2 ^ 24) : toFloat32 n = n := by
  rcases Nat.lt_or_eq_of_le h with hlt | heq
  · simpa using toFloat32_mul_pow n 0 hlt
  · subst heq
    have := toFloat32_mul_pow (2 ^ 23) 1 (by norm_num)
    simpa [← pow_succ] using this

theorem ulp32_of_log (n e : ℕ) (h : Nat.log 2 n = e) : ulp32 n = 2 ^ (e - 23) := by
  subst h; rfl

theorem toFloat32_of_ulp (n u : ℕ) (h : ulp32 n = u) :
    toFloat32 n = if 2 * (n % u) < u then n / u * u
      else if u < 2 * (n % u) then (n / u + 1) * u
      else if (n / u) % 2 = 0 then n / u * u else (n / u + 1) * u := by
  subst h; rfl

/-- The first natural number that `float` cannot hold rounds down: `(float)(2 ^ 24 + 1)`
is `2 ^ 24`, and so is `2 ^ 24 + 1.0f`. -/
theorem toFloat32_two_pow_succ : toFloat32 16777217 = 16777216 := by
  have h1 : 2 ^ 24 ≤ 16777217 := by norm_num
  have h2 : 16777217 < 2 ^ (24 + 1) := by norm_num
  have hlog : Nat.log 2 16777217 = 24 := Nat.log_eq_of_pow_le_of_lt_pow h1 h2
  have hu : ulp32 16777217 = 2 := (ulp32_of_log _ _ hlog).trans (by norm_num)
  rw [toFloat32_of_ulp _ _ hu]
  norm_num

theorem floor_le_toFloat32 (n : ℕ) : n / ulp32 n * ulp32 n ≤ toFloat32 n := by
  have h : n / ulp32 n * ulp32 n ≤ (n / ulp32 n + 1) * ulp32 n :=
    Nat.mul_le_mul_right _ (Nat.le_succ _)
  unfold toFloat32
  split_ifs <;> first | exact le_refl _ | exact h

theorem toFloat32_le_ceil (n : ℕ) : toFloat32 n ≤ (n / ulp32 n + 1) * ulp32 n := by
  have h : n / ulp32 n * ulp32 n ≤ (n / ulp32 n + 1) * ulp32 n :=
    Nat.mul_le_mul_right _ (Nat.le_succ _)
  unfold toFloat32
  split_ifs <;> first | exact le_refl _ | exact h

theorem pow_log_le_toFloat32 (n : ℕ) (hn : n ≠ 0) : 2 ^ Nat.log 2 n ≤ toFloat32 n := by
  have hdvd : ulp32 n ∣ 2 ^ Nat.log 2 n := Nat.pow_dvd_pow 2 (Nat.sub_le _ _)
  obtain ⟨k, hk⟩ := hdvd
  have h1 : 2 ^ Nat.log 2 n ≤ n := Nat.pow_log_le_self 2 hn
  have h2 : k ≤ n / ulp32 n := by
    rw [Nat.le_div_iff_mul_le (ulp32_pos n)]
    rw [hk, Nat.mul_comm] at h1
    exact h1
  calc 2 ^ Nat.log 2 n = k * ulp32 n := by rw [hk, Nat.mul_comm]
    _ ≤ n / ulp32 n * ulp32 n := Nat.mul_le_mul_right _ h2
    _ ≤ toFloat32 n := floor_le_toFloat32 n

theorem toFloat32_le_pow_log_succ (n : ℕ) : toFloat32 n ≤ 2 ^ (Nat.log 2 n + 1) := by
  have hdvd : ulp32 n ∣ 2 ^ (Nat.log 2 n + 1) := Nat.pow_dvd_pow 2 (by omega)
  obtain ⟨k, hk⟩ := hdvd
  have h1 : n < 2 ^ (Nat.log 2 n + 1) := Nat.lt_pow_succ_log_self (by norm_num) n
  have h2 : n / ulp32 n < k := by
    rw [Nat.div_lt_iff_lt_mul (ulp32_pos n)]
    rw [hk, Nat.mul_comm] at h1
    exact h1
  calc toFloat32 n ≤ (n / ulp32 n + 1) * ulp32 n := toFloat32_le_ceil n
    _ ≤ k * ulp32 n := Nat.mul_le_mul_right _ h2
    _ = 2 ^ (Nat.log 2 n + 1) := by rw [hk, Nat.mul_comm]

theorem toFloat32_mono_of_ulp (n m u : ℕ) (hn : ulp32 n = u) (hm : ulp32 m = u) (h : n ≤ m) :
    toFloat32 n ≤ toFloat32 m := by
  have hu : 0 < u := hn ▸ ulp32_pos n
  rw [toFloat32_of_ulp n u hn, toFloat32_of_ulp m u hm]
  have en := Nat.div_add_mod n u
  have em := Nat.div_add_mod m u
  have rn := Nat.mod_lt n hu
  have rm := Nat.mod_lt m hu
  have hq : n / u ≤ m / u := Nat.div_le_div_right h
  generalize n / u = qn at *
  generalize m / u = qm at *
  generalize n % u = an at *
  generalize m % u = am at *
  rcases Nat.lt_or_eq_of_le hq with hlt | heq
  · have A2 : (qn + 1) * u ≤ qm * u := Nat.mul_le_mul_right _ hlt
    have A1 : qn * u ≤ (qn + 1) * u := Nat.mul_le_mul_right _ (Nat.le_succ _)
    have A3 : qm * u ≤ (qm + 1) * u := Nat.mul_le_mul_right _ (Nat.le_succ _)
    split_ifs <;> omega
  · subst heq
    have A1 : qn * u ≤ (qn + 1) * u := Nat.mul_le_mul_right _ (Nat.le_succ _)
    have hr : an ≤ am := by
      have : u * qn + an ≤ u * qn + am := by omega
      omega
    split_ifs <;> omega

theorem toFloat32_mono (n m : ℕ) (h : n ≤ m) : toFloat32 n ≤ toFloat32 m := by
  rcases Nat.eq_zero_or_pos n with h0 | hpos
  · subst h0
    have : toFloat32 0 = 0 := by
      rw [toFloat32_of_ulp 0 1 (by simp [ulp32])]; simp
    omega
  · have hlog : Nat.log 2 n ≤ Nat.log 2 m := Nat.log_mono_right h
    rcases Nat.lt_or_eq_of_le hlog with hlt | heq
    · calc toFloat32 n ≤ 2 ^ (Nat.log 2 n + 1) := toFloat32_le_pow_log_succ n
        _ ≤ 2 ^ Nat.log 2 m := Nat.pow_le_pow_right (by norm_num) hlt
        _ ≤ toFloat32 m := pow_log_le_toFloat32 m (by omega)
    · exact toFloat32_mono_of_ulp n m (ulp32 n) rfl (by unfold ulp32; rw [heq]) h

/-- The value of `(float)RAND_MAX` for `RAND_MAX = 2 ^ 31 - 1` is `2 ^ 31`. -/
theorem toFloat32_int_max : toFloat32 2147483647 = 2147483648 := by
  have h1 : 2 ^ 30 ≤ 2147483647 := by norm_num
  have h2 : 2147483647 < 2 ^ (30 + 1) := by norm_num
  have hlog : Nat.log 2 2147483647 = 30 := Nat.log_eq_of_pow_le_of_lt_pow h1 h2
  have hu : ulp32 2147483647 = 128 := (ulp32_of_log _ _ hlog).trans (by norm_num)
  rw [toFloat32_of_ulp _ _ hu]
  norm_num

theorem toFloat32_two_pow_30 : toFloat32 1073741824 = 1073741824 := by
  have h := toFloat32_mul_pow 1 30 (by norm_num)
  norm_num at h
  exact h

end FloatCounter

section DrawTheorems

variable {R : Type} [LinearOrderedField R]

theorem unitDraw_nonneg (RAND_MAX n : ℕ) : (0 : R) ≤ unitDraw RAND_MAX n := by
  unfold unitDraw
  positivity

theorem unitDraw_le_one (RAND_MAX n : ℕ) (h : n ≤ RAND_MAX) :
    (unitDraw RAND_MAX n : R) ≤ 1 := by
  unfold unitDraw
  apply div_le_one_of_le₀
  · exact_mod_cast toFloat32_mono n RAND_MAX h
  · positivity

theorem unitDraw_int_max : (unitDraw 2147483647 2147483647 : R) = 1 := by
  unfold unitDraw
  rw [toFloat32_int_max]
  norm_num

theorem unitDraw_half : (unitDraw 2147483647 1073741824 : R) = 1 / 2 := by
  unfold unitDraw
  rw [toFloat32_int_max, toFloat32_two_pow_30]
  norm_num

end DrawTheorems

section LayoutLemmas

variable {R : Type}

/-- The first `m` records laid out one after the other. -/
theorem length_flatMap_toList (g : ℕ → Particle R) (m : ℕ) :
    ((List.range m).flatMap (fun j => (g j).toList)).length = 4 * m := by
  induction m with
  | zero => simp
  | succ m ih =>
    rw [List.range_succ, List.flatMap_append, List.length_append, ih]
    simp [Particle.toList]
    ring

theorem drop_flatMap_toList (g : ℕ → Particle R) (N i : ℕ) (hi : i < N) :
    ∃ rest, ((List.range N).flatMap (fun j => (g j).toList)).drop (4 * i)
      = (g i).toList ++ rest := by
  induction N with
  | zero => omega
  | succ n ih =>
    rw [List.range_succ, List.flatMap_append]
    have hlen := length_flatMap_toList g n
    rcases Nat.lt_succ_iff_lt_or_eq.mp hi with h | h
    · obtain ⟨rest, hrest⟩ := ih h
      rw [List.drop_append_of_le_length (by omega), hrest]
      exact ⟨rest ++ [n].flatMap (fun j => (g j).toList), by simp⟩
    · subst h
      rw [List.drop_left' hlen]
      exact ⟨[], by simp⟩

end LayoutLemmas

section AllocTheorems

variable {R : Type} [LinearOrderedField R]

theorem createVertexBufferObject_eq (N : ℕ) (hN : N * 16 < 2 ^ 32) :
    (createVertexBufferObject N : GLBuffer R) = ⟨N * 16, List.replicate (N * 4) 0⟩ := by
  have h1 : wrapUInt (N * particleSize) = N * 4 := by
    simp only [wrapUInt, particleSize]; omega
  have h2 : wrapUInt (N * particleSize * sizeOfFloat) = N * 16 := by
    simp only [wrapUInt, particleSize, sizeOfFloat]; omega
  have h3 : N * 16 / sizeOfFloat = N * 4 := by
    simp only [sizeOfFloat]; omega
  simp only [createVertexBufferObject, glBufferData, h1, h2, h3]
  rw [List.take_of_length_le (by simp)]

end AllocTheorems


section ParticleTheorems

variable {R : Type} [LinearOrderedField R] [FloorRing R]

theorem subDataCall_offset (RAND_MAX : ℕ) (rand : ℕ → ℕ) (frag : R) (i k : ℕ)
    (hi : i < 2 ^ 24) : (subDataCall RAND_MAX rand frag i k).offset = 16 * i := by
  have h1 : toFloat32 (i * particleSize) = i * 2 ^ 2 := by
    simpa [particleSize] using toFloat32_mul_pow i 2 hi
  have h2 : toFloat32 (i * 2 ^ 2 * sizeOfFloat) = i * 2 ^ 4 := by
    have h := toFloat32_mul_pow i 4 hi
    have e : i * 2 ^ 2 * sizeOfFloat = i * 2 ^ 4 := by simp only [sizeOfFloat]; ring
    rw [e]; exact h
  simp only [subDataCall, h1, h2]
  ring

theorem subDataCall_size (RAND_MAX : ℕ) (rand : ℕ → ℕ) (frag : R) (i k : ℕ) :
    (subDataCall RAND_MAX rand frag i k).size = 16 := by
  simp [subDataCall, wrapUInt, particleSize, sizeOfFloat]

/-- While the counter stays at or below `2 ^ 24` it counts exactly: from counter value `i`
the loop makes one call per remaining value below `(float)N`, with four draws each, and
ends. -/
theorem setupParticlesLoop_eq (N RAND_MAX : ℕ) (rand : ℕ → ℕ) (frag : R)
    (hM : toFloat32 N ≤ 2 ^ 24) :
    ∀ (n fuel i k : ℕ) (calls : List (SubData R)), toFloat32 N - i = n → i ≤ toFloat32 N →
      n < fuel →
      setupParticlesLoop N RAND_MAX rand frag fuel i k calls =
        some (calls ++ (List.range n).map
          (fun j => subDataCall RAND_MAX rand frag (i + j) (k + 4 * j))) := by
  intro n
  induction n with
  | zero =>
    intro fuel i k calls h hi hf
    obtain ⟨fuel, rfl⟩ : ∃ m, fuel = m + 1 := ⟨fuel - 1, by omega⟩
    rw [setupParticlesLoop, if_neg (by omega)]
    simp
  | succ n ih =>
    intro fuel i k calls h hi hf
    obtain ⟨fuel, rfl⟩ : ∃ m, fuel = m + 1 := ⟨fuel - 1, by omega⟩
    rw [setupParticlesLoop, if_pos (by omega), toFloat32_of_le (i + 1) (by omega),
      ih fuel (i + 1) (k + 4) _ (by omega) (by omega) (by omega),
      List.range_succ_eq_map, List.map_cons, List.map_map, List.append_assoc]
    congr 2
    simp only [List.singleton_append, Nat.add_zero, Nat.mul_zero]
    congr 1
    apply List.map_congr_left
    intro j _
    simp only [Function.comp_apply, Nat.succ_eq_add_one]
    congr 1 <;> ring

/-- Once `(float)N` exceeds `2 ^ 24` the counter sticks at `2 ^ 24` and the loop never
ends, whatever the fuel. -/
theorem setupParticlesLoop_stuck (N RAND_MAX : ℕ) (rand : ℕ → ℕ) (frag : R)
    (hM : 2 ^ 24 < toFloat32 N) :
    ∀ (fuel i k : ℕ) (calls : List (SubData R)), i ≤ 2 ^ 24 →
      setupParticlesLoop N RAND_MAX rand frag fuel i k calls = none := by
  intro fuel
  induction fuel with
  | zero => intro i k calls _; rfl
  | succ fuel ih =>
    intro i k calls hi
    have hnext : toFloat32 (i + 1) ≤ 2 ^ 24 := by
      have h1 := toFloat32_mono (i + 1) 16777217 (by omega)
      rw [toFloat32_two_pow_succ] at h1
      omega
    rw [setupParticlesLoop, if_pos (by omega)]
    exact ih _ _ _ hnext

theorem particleCalls_eq_of_float (fuel N RAND_MAX : ℕ) (rand : ℕ → ℕ) (frag : R)
    (hM : toFloat32 N ≤ 2 ^ 24) (hfuel : toFloat32 N < fuel) :
    particleCalls fuel N RAND_MAX rand frag =
      some ((List.range (toFloat32 N)).map
        (fun j => subDataCall RAND_MAX rand frag j (4 * j))) := by
  rw [particleCalls, setupParticlesLoop_eq N RAND_MAX rand frag hM (toFloat32 N) fuel 0 0 [] rfl
    (Nat.zero_le _) hfuel]
  simp

theorem particleCalls_eq (fuel N RAND_MAX : ℕ) (rand : ℕ → ℕ) (frag : R)
    (hN : N ≤ 2 ^ 24) (hfuel : N < fuel) :
    particleCalls fuel N RAND_MAX rand frag =
      some ((List.range N).map (fun j => subDataCall RAND_MAX rand frag j (4 * j))) := by
  have h := toFloat32_of_le N hN
  have := particleCalls_eq_of_float fuel N RAND_MAX rand frag (by omega) (by omega)
  rwa [h] at this

theorem particleRecords_eq_of_float (fuel N RAND_MAX : ℕ) (rand : ℕ → ℕ) (frag : R)
    (hM : toFloat32 N ≤ 2 ^ 24) (hfuel : toFloat32 N < fuel) :
    particleRecords fuel N RAND_MAX rand frag =
      some ((List.range (toFloat32 N)).map
        (fun j => particleData RAND_MAX rand frag j (4 * j))) := by
  rw [particleRecords, particleCalls_eq_of_float fuel N RAND_MAX rand frag hM hfuel,
    Option.map_some', List.map_map]
  rfl

theorem particleRecords_eq (fuel N RAND_MAX : ℕ) (rand : ℕ → ℕ) (frag : R)
    (hN : N ≤ 2 ^ 24) (hfuel : N < fuel) :
    particleRecords fuel N RAND_MAX rand frag =
      some ((List.range N).map (fun j => particleData RAND_MAX rand frag j (4 * j))) := by
  have h := toFloat32_of_le N hN
  have := particleRecords_eq_of_float fuel N RAND_MAX rand frag (by omega) (by omega)
  rwa [h] at this

theorem getElem?_range_map {α : Type} (g : ℕ → α) (N i : ℕ) (hi : i < N) :
    ((List.range N).map g)[i]? = some (g i) := by
  simp [List.getElem?_map, List.getElem?_range hi]

theorem fmod_of_nonneg (x y : R) (hx : 0 ≤ x) (hy : 0 < y) :
    fmod x y = x - (⌊x / y⌋ : R) * y := by
  rw [fmod, truncToInt, if_pos (div_nonneg hx hy.le)]

theorem fmod_nonneg (x y : R) (hx : 0 ≤ x) (hy : 0 < y) : 0 ≤ fmod x y := by
  rw [fmod_of_nonneg x y hx hy]
  exact Int.sub_floor_div_mul_nonneg x hy

theorem fmod_lt (x y : R) (hx : 0 ≤ x) (hy : 0 < y) : fmod x y < y := by
  rw [fmod_of_nonneg x y hx hy]
  exact Int.sub_floor_div_mul_lt x hy

/-- C1 (as stated, refuted): for `N = 8`, `frag = cbrt 8 = 2` and `RAND_MAX = 2147483647`,
when every call of `rand()` returns `RAND_MAX` the record of index 7 has `size = 40`, `x = 30`
and `z = 165 / 4`; when every call returns `2 ^ 30` (a draw below one) its `z` is still above
30; for `N = 2 ^ 24 + 1` the loop ends after `2 ^ 24` records, one short of `N`; and for
`N = 2 ^ 24 + 2` it never ends. -/
theorem particle_bounds_refuted :
    (2 : ℚ) ^ 3 = ((8 : ℕ) : ℚ) ∧
    (∃ recs p, particleRecords 9 8 2147483647 (fun _ => 2147483647) (2 : ℚ) = some recs ∧
      recs[7]? = some p ∧ p.size = 40 ∧ p.x = 30 ∧ p.z = 165 / 4) ∧
    (∃ recs p, particleRecords 9 8 2147483647 (fun _ => 1073741824) (2 : ℚ) = some recs ∧
      recs[7]? = some p ∧ (unitDraw 2147483647 1073741824 : ℚ) < 1 ∧ 30 < p.z) ∧
    (∃ recs, particleRecords 16777218 16777217 2147483647 (fun _ => 0) (256 : ℚ) = some recs ∧
      recs.length = 16777216) ∧
    (∀ fuel, particleRecords fuel 16777218 2147483647 (fun _ => 0) (256 : ℚ) = none) := by
  have hfl : ⌊(7 : ℚ) / 2⌋ = 3 := by
    rw [Int.floor_eq_iff]; norm_num
  have hfm : fmod (7 : ℚ) 2 = 1 := by
    rw [fmod_of_nonneg _ _ (by norm_num) (by norm_num), hfl]; norm_num
  refine ⟨by norm_num, ?_, ?_, ?_, ?_⟩
  · refine ⟨_, _, particleRecords_eq 9 8 _ _ _ (by norm_num) (by norm_num),
      getElem?_range_map _ 8 7 (by norm_num), ?_, ?_, ?_⟩
    · norm_num [particleData, unitDraw_int_max]
    · simp only [particleData, Nat.cast_ofNat, hfm, unitDraw_int_max]
      norm_num
    · norm_num [particleData, unitDraw_int_max]
  · refine ⟨_, _, particleRecords_eq 9 8 _ _ _ (by norm_num) (by norm_num),
      getElem?_range_map _ 8 7 (by norm_num), ?_, ?_⟩
    · norm_num [unitDraw_half]
    · norm_num [particleData, unitDraw_half]
  · have h := toFloat32_two_pow_succ
    refine ⟨_, particleRecords_eq_of_float 16777218 16777217 _ _ _ (by rw [h]; norm_num)
      (by rw [h]; norm_num), ?_⟩
    rw [List.length_map, List.length_range, h]
  · intro fuel
    have h18 : toFloat32 16777218 = 16777218 := by
      have h := toFloat32_mul_pow 8388609 1 (by norm_num)
      norm_num at h
      exact h
    rw [particleRecords, particleCalls,
      setupParticlesLoop_stuck 16777218 _ _ _ (by rw [h18]; norm_num) fuel 0 0 []
        (Nat.zero_le _)]
    rfl

/-- C1 (amended): for every `N` with `1 ≤ N ≤ 2 ^ 24`, `frag = cbrt N` and all draws
`rand() ≤ RAND_MAX`, the generation loop ends (within `N + 1` tests) and has produced
exactly `N` records, each with `20 ≤ size ≤ 40`, `0 ≤ y < 30`, `0 ≤ x < 30 + 30 / frag`
and `0 ≤ z < 30 + 30 / frag`. -/
theorem particle_bounds (fuel N RAND_MAX : ℕ) (rand : ℕ → ℕ) (frag : R) (hN : 1 ≤ N)
    (hN24 : N ≤ 2 ^ 24) (hfuel : N < fuel) (hfrag : frag ^ 3 = (N : R))
    (hrand : ∀ k, rand k ≤ RAND_MAX) :
    ∃ recs, particleRecords fuel N RAND_MAX rand frag = some recs ∧ recs.length = N ∧
      ∀ p ∈ recs,
        20 ≤ p.size ∧ p.size ≤ 40 ∧ 0 ≤ p.y ∧ p.y < 30 ∧
        0 ≤ p.x ∧ p.x < 30 + 30 / frag ∧ 0 ≤ p.z ∧ p.z < 30 + 30 / frag := by
  have hpos : 0 < frag := by
    by_contra hneg
    push_neg at hneg
    have h3 : frag ^ 3 ≤ 0 := Odd.pow_nonpos (by decide) hneg
    have hN' : (1 : R) ≤ (N : R) := by exact_mod_cast hN
    linarith
  refine ⟨_, particleRecords_eq fuel N RAND_MAX rand frag hN24 hfuel, by simp, ?_⟩
  intro p hp
  obtain ⟨i, hi, rfl⟩ := List.mem_map.mp hp
  have hiN : i < N := List.mem_range.mp hi
  have hi0 : (0 : R) ≤ (i : R) := Nat.cast_nonneg i
  have r0 := unitDraw_nonneg (R := R) RAND_MAX (rand (4 * i))
  have r0' := unitDraw_le_one (R := R) RAND_MAX _ (hrand (4 * i))
  have r1 := unitDraw_nonneg (R := R) RAND_MAX (rand (4 * i + 1))
  have r2 := unitDraw_nonneg (R := R) RAND_MAX (rand (4 * i + 2))
  have r2' := unitDraw_le_one (R := R) RAND_MAX _ (hrand (4 * i + 2))
  have r3 := unitDraw_nonneg (R := R) RAND_MAX (rand (4 * i + 3))
  have r3' := unitDraw_le_one (R := R) RAND_MAX _ (hrand (4 * i + 3))
  have hx0 := fmod_nonneg (i : R) frag hi0 hpos
  have hx1 := fmod_lt (i : R) frag hi0 hpos
  have hya : 0 ≤ unitDraw RAND_MAX (rand (4 * i + 1)) + (i : R) / frag :=
    add_nonneg r1 (div_nonneg hi0 hpos.le)
  have hy0 := fmod_nonneg _ frag hya hpos
  have hy1 := fmod_lt _ frag hya hpos
  have hz1 : (i : R) / frag ^ 2 < frag := by
    rw [div_lt_iff₀ (by positivity)]
    have : (i : R) < (N : R) := by exact_mod_cast hiN
    calc (i : R) < (N : R) := this
      _ = frag * frag ^ 2 := by rw [← hfrag]; ring
  have hz0 : 0 ≤ (i : R) / frag ^ 2 := by positivity
  have hbound : ∀ a : R, 0 ≤ a → a < 1 + frag → 0 ≤ a / frag * 30 ∧ a / frag * 30 < 30 + 30 / frag := by
    intro a ha0 ha1
    refine ⟨by positivity, ?_⟩
    have h1 : a / frag < (1 + frag) / frag := div_lt_div_of_pos_right ha1 hpos
    have h2 : (1 + frag) / frag * 30 = 30 + 30 / frag := by field_simp; ring
    linarith
  have hX := hbound (unitDraw RAND_MAX (rand (4 * i)) + fmod (i : R) frag) (by linarith)
    (by linarith)
  have hZ := hbound (unitDraw RAND_MAX (rand (4 * i + 2)) + (i : R) / frag ^ 2) (by linarith)
    (by linarith)
  simp only [particleData]
  refine ⟨by linarith, by linarith, by positivity, ?_, hX.1, hX.2, hZ.1, hZ.2⟩
  have h1 : fmod (unitDraw RAND_MAX (rand (4 * i + 1)) + (i : R) / frag) frag / frag < 1 := by
    rw [div_lt_one hpos]; exact hy1
  linarith

/-- C1 (amended), instance: `N = 8`, `frag = 2`, every call of `rand()` returning
`RAND_MAX`. -/
theorem particle_bounds_witness :
    1 ≤ 8 ∧ 8 ≤ 2 ^ 24 ∧ 8 < 9 ∧ (2 : ℚ) ^ 3 = ((8 : ℕ) : ℚ) ∧
    ∃ recs, particleRecords 9 8 2147483647 (fun _ => 2147483647) (2 : ℚ) = some recs ∧
      recs.length = 8 ∧
      ∀ p ∈ recs,
        20 ≤ p.size ∧ p.size ≤ 40 ∧ 0 ≤ p.y ∧ p.y < 30 ∧
        0 ≤ p.x ∧ p.x < 30 + 30 / 2 ∧ 0 ≤ p.z ∧ p.z < 30 + 30 / 2 :=
  ⟨by norm_num, by norm_num, by norm_num, by norm_num,
   particle_bounds 9 8 2147483647 (fun _ => 2147483647) (2 : ℚ) (by norm_num) (by norm_num)
     (by norm_num) (by norm_num) (fun _ => le_refl _)⟩

theorem foldl_subData (N RAND_MAX : ℕ) (rand : ℕ → ℕ) (frag : R) (hN : N ≤ 2 ^ 24) :
    ∀ m, m ≤ N →
      ((List.range m).map (fun j => subDataCall RAND_MAX rand frag j (4 * j))).foldl
          (fun b c => glBufferSubData b c.offset c.size c.data.toList)
          (⟨N * 16, List.replicate (N * 4) 0⟩ : GLBuffer R) =
        ⟨N * 16, (List.range m).flatMap
            (fun j => (particleData RAND_MAX rand frag j (4 * j)).toList)
          ++ List.replicate (4 * (N - m)) 0⟩ := by
  intro m
  induction m with
  | zero => intro _; simp [Nat.mul_comm]
  | succ m ih =>
    intro hm
    rw [List.range_succ, List.map_append, List.foldl_append, ih (by omega)]
    have hlen := length_flatMap_toList (fun j => particleData RAND_MAX rand frag j (4 * j)) m
    have hoff := subDataCall_offset RAND_MAX rand frag m (4 * m) (by omega)
    have hsz := subDataCall_size RAND_MAX rand frag m (4 * m)
    have ho : 16 * m / sizeOfFloat = 4 * m := by
      simp only [sizeOfFloat]; omega
    have hs : 16 / sizeOfFloat = 4 := by
      simp [sizeOfFloat]
    have hc : 16 * m + 16 ≤ N * 16 := by omega
    simp only [List.map_cons, List.map_nil, List.foldl_cons, List.foldl_nil, glBufferSubData,
      hoff, hsz, if_pos hc, ho, hs]
    have hd : (subDataCall RAND_MAX rand frag m (4 * m)).data
        = particleData RAND_MAX rand frag m (4 * m) := rfl
    rw [hd, List.take_left' hlen, List.take_of_length_le (by simp [Particle.toList]),
      List.drop_append_eq_append_drop, hlen, List.drop_of_length_le (by omega),
      List.drop_replicate, List.flatMap_append]
    have h4 : 4 * (N - m) - (4 * m + 4 - 4 * m) = 4 * (N - (m + 1)) := by omega
    have h5 : 4 * (N - m) - 4 = 4 * (N - (m + 1)) := by omega
    simp [h4, h5]

theorem setupParticles_eq (fuel N RAND_MAX : ℕ) (rand : ℕ → ℕ) (frag : R)
    (hN : N ≤ 2 ^ 24) (hfuel : N < fuel) :
    setupParticles fuel N RAND_MAX rand frag =
      some { buffer := ⟨N * 16, (List.range N).flatMap
               (fun j => (particleData RAND_MAX rand frag j (4 * j)).toList)⟩
             posAttrib := ⟨3, 16, 0⟩
             sizeAttrib := ⟨1, 16, 12⟩
             vertexBufferSize := N } := by
  have hattr : bindAttributes = (⟨3, 16, 0⟩, ⟨1, 16, 12⟩) := by decide
  rw [setupParticles, particleCalls_eq fuel N RAND_MAX rand frag hN hfuel, Option.map_some',
    createVertexBufferObject_eq N (by omega), foldl_subData N RAND_MAX rand frag hN N (le_refl _),
    hattr]
  simp

theorem callList_getElem?_inv (N RAND_MAX : ℕ) (rand : ℕ → ℕ) (frag : R) (hN : N ≤ 2 ^ 24)
    (i : ℕ) (c : SubData R)
    (h : ((List.range N).map (fun j => subDataCall RAND_MAX rand frag j (4 * j)))[i]? = some c) :
    i < N ∧ c.offset = 16 * i ∧ c.size = 16 ∧
      c.data = particleData RAND_MAX rand frag i (4 * i) := by
  have hi : i < N := by
    have := (List.getElem?_eq_some_iff.mp h).1
    simpa using this
  rw [getElem?_range_map _ N i hi] at h
  have hc : c = subDataCall RAND_MAX rand frag i (4 * i) := (Option.some.inj h).symm
  subst hc
  exact ⟨hi, subDataCall_offset _ _ _ _ _ (by omega), subDataCall_size _ _ _ _ _, rfl⟩

/-- C10: for a particle count `N ≤ 2 ^ 24` (the range in which the float counter of the loop
counts exactly; it contains `numberOfParticles`) the store is allocated with `N * 4` floats,
that is `N * 16` bytes; the loop ends after `N` writes, write `i` being the 16 bytes of
record `i` at byte offset `16 * i`; every write lies inside the store, distinct writes do
not overlap and every byte of the store is covered by a write; `bindAttributes` sets `pos`
to 3 floats at offset 0 and `size` to 1 float at offset 12, both with stride 16; and the
attributes fetched for vertex `i` are `(x, y, z)` and `size` of record `i`. -/
theorem particle_buffer_layout (fuel N RAND_MAX : ℕ) (rand : ℕ → ℕ) (frag : R)
    (hN : N ≤ 2 ^ 24) (hfuel : N < fuel) :
    (createVertexBufferObject N : GLBuffer R).size = N * 16 ∧
    (createVertexBufferObject N : GLBuffer R).floats.length = N * 4 ∧
    bindAttributes = (⟨3, 16, 0⟩, ⟨1, 16, 12⟩) ∧
    ∃ (calls : List (SubData R)) (obj : ParticleObject R),
      particleCalls fuel N RAND_MAX rand frag = some calls ∧
      particleRecords fuel N RAND_MAX rand frag = some (calls.map SubData.data) ∧
      setupParticles fuel N RAND_MAX rand frag = some obj ∧
      calls.length = N ∧
      (∀ i, i < N → ∃ c, calls[i]? = some c ∧ c.offset = 16 * i ∧ c.size = 16 ∧
        c.offset + c.size ≤ (createVertexBufferObject N : GLBuffer R).size) ∧
      (∀ (i j : ℕ) (c d : SubData R), calls[i]? = some c → calls[j]? = some d → i ≠ j →
        c.offset + c.size ≤ d.offset ∨ d.offset + d.size ≤ c.offset) ∧
      (∀ b, b < (createVertexBufferObject N : GLBuffer R).size →
        ∃ (i : ℕ) (c : SubData R), calls[i]? = some c ∧ c.offset ≤ b ∧ b < c.offset + c.size) ∧
      obj.buffer.size = N * 16 ∧
      obj.posAttrib = ⟨3, 16, 0⟩ ∧ obj.sizeAttrib = ⟨1, 16, 12⟩ ∧ obj.vertexBufferSize = N ∧
      (∀ i, i < N → ∃ c, calls[i]? = some c ∧
        fetchAttrib obj.buffer obj.posAttrib i = [c.data.x, c.data.y, c.data.z] ∧
        fetchAttrib obj.buffer obj.sizeAttrib i = [c.data.size]) := by
  have hattr : bindAttributes = (⟨3, 16, 0⟩, ⟨1, 16, 12⟩) := by decide
  have halloc := createVertexBufferObject_eq (R := R) N (by omega)
  have hcalls := particleCalls_eq fuel N RAND_MAX rand frag hN hfuel
  refine ⟨by rw [halloc], by rw [halloc]; simp, hattr, _, _, hcalls, ?_,
    setupParticles_eq fuel N RAND_MAX rand frag hN hfuel, by simp, ?_, ?_, ?_, rfl, rfl, rfl,
    rfl, ?_⟩
  · rw [particleRecords, hcalls, Option.map_some']
  · intro i hi
    have hc := getElem?_range_map (fun j => subDataCall RAND_MAX rand frag j (4 * j)) N i hi
    obtain ⟨_, ho, hs, _⟩ := callList_getElem?_inv N RAND_MAX rand frag hN i _ hc
    refine ⟨_, hc, ho, hs, ?_⟩
    rw [ho, hs, halloc]; simp only; omega
  · intro i j c d hc hd hij
    obtain ⟨_, ho, hs, _⟩ := callList_getElem?_inv N RAND_MAX rand frag hN i c hc
    obtain ⟨_, ho', hs', _⟩ := callList_getElem?_inv N RAND_MAX rand frag hN j d hd
    omega
  · intro b hb
    rw [halloc] at hb
    simp only at hb
    have hi : b / 16 < N := by omega
    have hc := getElem?_range_map (fun j => subDataCall RAND_MAX rand frag j (4 * j)) N
      (b / 16) hi
    obtain ⟨_, ho, hs, _⟩ := callList_getElem?_inv N RAND_MAX rand frag hN (b / 16) _ hc
    exact ⟨b / 16, _, hc, by omega, by omega⟩
  · intro i hi
    have hc := getElem?_range_map (fun j => subDataCall RAND_MAX rand frag j (4 * j)) N i hi
    obtain ⟨rest, hrest⟩ :=
      drop_flatMap_toList (fun j => particleData RAND_MAX rand frag j (4 * j)) N i hi
    refine ⟨_, hc, ?_, ?_⟩
    · have hoff : (0 + i * 16) / sizeOfFloat = 4 * i := by simp only [sizeOfFloat]; omega
      simp only [fetchAttrib, hoff, hrest]
      simp [Particle.toList, subDataCall]
    · have hoff : (12 + i * 16) / sizeOfFloat = 4 * i + 3 := by
        simp only [sizeOfFloat]; omega
      simp only [fetchAttrib, hoff]
      rw [← List.drop_drop, hrest]
      simp [Particle.toList, subDataCall]

/-- C10, instance: the configured `numberOfParticles = 10000`. -/
theorem particle_buffer_layout_witness :
    numberOfParticles ≤ 2 ^ 24 ∧ numberOfParticles < 10001 ∧
    (createVertexBufferObject numberOfParticles : GLBuffer ℚ).size = 160000 ∧
    ∃ (calls : List (SubData ℚ)) (obj : ParticleObject ℚ),
      particleCalls 10001 numberOfParticles 2147483647 (fun _ => 0) (21 : ℚ) = some calls ∧
      setupParticles 10001 numberOfParticles 2147483647 (fun _ => 0) (21 : ℚ) = some obj ∧
      calls.length = numberOfParticles ∧
      ∀ i, i < numberOfParticles → ∃ c, calls[i]? = some c ∧
        fetchAttrib obj.buffer obj.posAttrib i = [c.data.x, c.data.y, c.data.z] ∧
        fetchAttrib obj.buffer obj.sizeAttrib i = [c.data.size] := by
  obtain ⟨h1, _, _, calls, obj, hc, _, ho, hl, _, _, _, _, _, _, _, hf⟩ :=
    particle_buffer_layout (R := ℚ) 10001 numberOfParticles 2147483647 (fun _ => 0) 21
      (by norm_num [numberOfParticles]) (by norm_num [numberOfParticles])
  exact ⟨by norm_num [numberOfParticles], by norm_num [numberOfParticles],
    by rw [h1]; norm_num [numberOfParticles], calls, obj, hc, ho, hl, hf⟩

end ParticleTheorems

end Weather
